import Mathlib

/-!
Verification of the transactional write engine of a pluggable key-value
storage layer (distributed-KV backend `FdbStore` and SQL backend
`PostgresStore`), shallowly embedded from
`src/crates/store/src/backend/foundationdb/write.rs` and
`src/crates/store/src/backend/postgres/write.rs`.

Byte strings are modelled as `List Nat`, machine integers as `Nat`/`Int`
with explicit bounds where overflow matters, and fallible code as
`Except`.
-/

/-- Byte strings (each element is a byte value; bounds are stated where they
matter). -/
abbrev Bytes := List Nat

/-- The sentinel `u32::MAX`. -/
def u32MAX : Nat := 4294967295

/-- `U32_LEN` from the store crate: a `u32` serializes to 4 bytes. -/
def U32_LEN : Nat := 4

/-- The error kinds of `crate::Error` that the write path produces:
`AssertValueFailed`, `InternalError(msg)`, and any surfaced backend error
(collapsed into one constructor since the engine only passes it through). -/
inductive Error where
  | assertValueFailed : Error
  | internalError : String → Error
  | backendError : Error
deriving DecidableEq, Repr

/-! ## Chunker (`FdbStore::write`, `ValueOp::Set`, foundationdb/write.rs lines 93-117)

`value.chunks(MAX_VALUE_SIZE)` from Rust: consecutive slices of at most `M`
elements.  The recursion is driven by a fuel argument equal to the length of
the list so that the definition is structural (and hence reducible); for
`1 ≤ M` and fuel at least `v.length` it agrees with the Rust iterator. -/
def chunksListAux {α : Type} (M : Nat) : Nat → List α → List (List α)
  | 0, _ => []
  | _, [] => []
  | fuel + 1, v => v.take M :: chunksListAux M fuel (v.drop M)

/-- `v.chunks(M)` as a list of chunks. -/
def chunksList {α : Type} (M : Nat) (v : List α) : List (List α) :=
  chunksListAux M v.length v

/-- `*key.last_mut().unwrap() += 1` on a byte key. -/
def incLast (key : Bytes) : Bytes :=
  key.dropLast ++ [key.getLastD 0 + 1]

/-- The chunk-writing loop of `ValueOp::Set` (foundationdb/write.rs lines
96-114): iterate over the enumerated chunks; at position 0 the key is left
bare, at position 1 a trailing `0` byte is appended, at a later position the
trailing byte is incremented while `pos < u8::MAX`, and otherwise the
transaction is cancelled with `InternalError("Value too large")`.  The result
collects the `trx.set(&key, chunk)` write list in order. -/
def fdbSetLoop : List Bytes → Nat → Bytes → Except Error (List (Bytes × Bytes))
  | [], _, _ => .ok []
  | chunk :: rest, pos, key =>
    if pos = 0 then
      match fdbSetLoop rest 1 key with
      | .ok ws => .ok ((key, chunk) :: ws)
      | .error e => .error e
    else if pos = 1 then
      match fdbSetLoop rest 2 (key ++ [0]) with
      | .ok ws => .ok ((key ++ [0], chunk) :: ws)
      | .error e => .error e
    else if pos < 255 then
      match fdbSetLoop rest (pos + 1) (incLast key) with
      | .ok ws => .ok ((incLast key, chunk) :: ws)
      | .error e => .error e
    else
      .error (.internalError "Value too large")

/-- `ValueOp::Set` on the distributed-KV backend (foundationdb/write.rs lines
93-117): a non-empty value of a non-counter class is written through the
chunk loop, anything else as the single write `(key, value)`. -/
def fdbValueSet (M : Nat) (key value : Bytes) (is_counter : Bool) :
    Except Error (List (Bytes × Bytes)) :=
  if !value.isEmpty && !is_counter then
    fdbSetLoop (chunksList M value) 0 key
  else
    .ok [(key, value)]

/-- The key chunk `i` of a split value is stored at: the bare key for
`i = 0`, the key with the single trailing byte `i - 1` otherwise. -/
def chunkKey (key : Bytes) (i : Nat) : Bytes :=
  if i = 0 then key else key ++ [i - 1]

/-- The write list the chunking protocol promises for a list of chunks,
starting at chunk index `i`. -/
def expectedWritesFrom (key : Bytes) : Nat → List Bytes → List (Bytes × Bytes)
  | _, [] => []
  | i, c :: rest => (chunkKey key i, c) :: expectedWritesFrom key (i + 1) rest

/-- The full expected write list of a chunked value. -/
def expectedChunkWrites (key : Bytes) (chunks : List Bytes) : List (Bytes × Bytes) :=
  expectedWritesFrom key 0 chunks

/-! ## Retry controller

`FdbStore::write` (foundationdb/write.rs lines 53-290) and
`PostgresStore::write` (postgres/write.rs lines 51-90) wrap one batch
attempt in a retry loop.  One attempt — transaction creation, interpretation
of the operations and the commit — is abstracted into a function from the
current retry count to its outcome; the wall clock is abstracted into a
function from the retry count to the elapsed time (in the same unit as the
bound `MAX_COMMIT_TIME`).  `MAX_COMMIT_ATTEMPTS` and `MAX_COMMIT_TIME` are
constants of the store crate outside the embedded files, so the loops take
them as parameters. -/

/-- Outcome of one attempt of `FdbStore::write`: the ops ran and the commit
succeeded, an operation returned early with an error (`AssertValue` mismatch
or chunk overflow), or the commit failed — `retriable` says whether
`err.on_error()` resolves the failure as retriable. -/
inductive FdbAttempt (α : Type) where
  | success : α → FdbAttempt α
  | opError : Error → FdbAttempt α
  | commitConflict : Bool → FdbAttempt α

/-- The retry loop of `FdbStore::write` (foundationdb/write.rs lines 275-289):
on a commit error, retry when `retry_count < MAX_COMMIT_ATTEMPTS &&
start.elapsed() < MAX_COMMIT_TIME` and `err.on_error()` succeeds, surface the
backend error otherwise. -/
def fdbWriteLoop {α : Type} (attempt : Nat → FdbAttempt α) (elapsed : Nat → Nat)
    (maxAttempts maxTime retry_count : Nat) : Except Error α :=
  match attempt retry_count with
  | .success ids => .ok ids
  | .opError e => .error e
  | .commitConflict retriable =>
    if h : retry_count < maxAttempts ∧ elapsed retry_count < maxTime then
      if retriable then
        fdbWriteLoop attempt elapsed maxAttempts maxTime (retry_count + 1)
      else .error .backendError
    else .error .backendError
termination_by maxAttempts - retry_count
decreasing_by omega

/-- The SQL error codes the write path distinguishes
(`tokio_postgres::error::SqlState`). -/
inductive SqlErrCode where
  | serializationFailure : SqlErrCode
  | deadlockDetected : SqlErrCode
  | uniqueViolation : SqlErrCode
  | other : SqlErrCode
deriving DecidableEq, Repr

/-- `CommitError` of postgres/write.rs lines 43-48: a database error, an
internal engine error, or the allocator retry sentinel. -/
inductive CommitError where
  | postgres : SqlErrCode → CommitError
  | internal : Error → CommitError
  | retry : CommitError
deriving DecidableEq, Repr

/-- The error classification of the document-id bitmap insert
(postgres/write.rs lines 289-296): a unique violation during a
`DocumentIds` insert becomes the retry sentinel, everything else stays a
database error. -/
def classifyBitmapExecError (is_document_id : Bool) (code : SqlErrCode) : CommitError :=
  if is_document_id && code == .uniqueViolation then .retry
  else .postgres code

/-- The retry loop of `PostgresStore::write` (postgres/write.rs lines 56-89):
a serialization failure or deadlock retries while `retry_count <
MAX_COMMIT_ATTEMPTS && elapsed < MAX_COMMIT_TIME` and otherwise surfaces the
database error; a unique violation surfaces `AssertValueFailed` at once; an
internal error surfaces at once; the retry sentinel surfaces
`AssertValueFailed` when `retry_count > MAX_COMMIT_ATTEMPTS || elapsed >
MAX_COMMIT_TIME` and retries otherwise. -/
def pgWriteLoop {α : Type} (attempt : Nat → Except CommitError α) (elapsed : Nat → Nat)
    (maxAttempts maxTime retry_count : Nat) : Except Error α :=
  match attempt retry_count with
  | .ok result => .ok result
  | .error (.postgres code) =>
    if h : (code = .serializationFailure ∨ code = .deadlockDetected) ∧
        retry_count < maxAttempts ∧ elapsed retry_count < maxTime then
      pgWriteLoop attempt elapsed maxAttempts maxTime (retry_count + 1)
    else if code = .uniqueViolation then .error .assertValueFailed
    else .error .backendError
  | .error (.internal e) => .error e
  | .error .retry =>
    if h : retry_count > maxAttempts ∨ elapsed retry_count > maxTime then
      .error .assertValueFailed
    else pgWriteLoop attempt elapsed maxAttempts maxTime (retry_count + 1)
termination_by maxAttempts + 1 - retry_count
decreasing_by all_goals omega

/-- Modelled from the spec: `rand::thread_rng().gen_range(50..=300)` (the
random backoff slept before each retry, foundationdb/write.rs line 282 and
postgres/write.rs line 84) yields a number of milliseconds in `50..=300`;
modelled as a function of the RNG draw. -/
def gen_range_backoff (seed : Nat) : Nat := 50 + seed % 251

/-- The statement a `Bitmap` operation prepares on the SQL backend
(postgres/write.rs lines 274-287): setting a `DocumentIds` bit uses a plain
`INSERT` with no `ON CONFLICT` clause, setting any other bitmap class an
`INSERT .. ON CONFLICT (k) DO NOTHING`, and unsetting a `DELETE`. -/
inductive BitmapStatement where
  | insertPlain : BitmapStatement
  | insertOnConflictDoNothing : BitmapStatement
  | deleteRow : BitmapStatement
deriving DecidableEq, Repr

/-- Statement selection for `Operation::Bitmap` on the SQL backend; it
depends only on `is_document_id` and `set`, not on the context document id. -/
def pgBitmapStatement (is_document_id set : Bool) : BitmapStatement :=
  if set then
    if is_document_id then .insertPlain else .insertOnConflictDoNothing
  else .deleteRow

/-! ## Batch interpreter context (both backends)

Both `FdbStore::write` (foundationdb/write.rs lines 58-272) and
`PostgresStore::write_trx` (postgres/write.rs lines 97-341) thread three
mutable context slots initialized to sentinels plus a growing `AssignedIds`
result through the operation list.  Only the shape of each operation that
touches this state matters here, so payloads irrelevant to the state are
dropped; the value observed by `AddAndGet` (a store read) is carried as the
resolved post-value. -/

/-- The mutable interpreter state: context slots and the accumulated
`AssignedIds` (`push_document_id` / `push_counter_id` append in order). -/
structure WriteState where
  account_id : Nat
  collection : Nat
  document_id : Nat
  assigned_document_ids : List Nat
  assigned_counter_ids : List Int
deriving DecidableEq, Repr

/-- The initial state of one attempt: `u32::MAX`, `u8::MAX`, `u32::MAX` and
an empty `AssignedIds`. -/
def initWriteState : WriteState :=
  { account_id := u32MAX, collection := 255, document_id := u32MAX,
    assigned_document_ids := [], assigned_counter_ids := [] }

/-- The operations of a batch, keeping exactly the payloads that feed the
context state machine.  `bitmap` records whether the class is
`BitmapClass::DocumentIds` and the `set` flag; `valueAddAndGet` carries the
post-add counter value the backend read produced. -/
inductive Op where
  | accountId : Nat → Op
  | collectionOp : Nat → Op
  | documentIdOp : Nat → Op
  | valueSet : Op
  | valueAtomicAdd : Op
  | valueAddAndGet : Int → Op
  | valueClear : Op
  | indexOp : Bool → Op
  | bitmap : Bool → Bool → Op
  | logOp : Op
  | assertValueOp : Op
deriving DecidableEq, Repr

/-- The allocator trigger of `Operation::Bitmap` (foundationdb/write.rs lines
162-167, postgres/write.rs lines 230-233): `*set`, the class is
`DocumentIds`, and the context document id is still the sentinel. -/
def allocTriggered (st : WriteState) (op : Op) : Bool :=
  match op with
  | .bitmap isDocumentIds set => set && isDocumentIds && st.document_id == u32MAX
  | _ => false

/-- One step of the context state machine.  `alloc` is the document-id
allocator (range scan of the `DocumentIds` bitmap over the current account
and collection followed by `random_available_id`), abstracted as a function
of the scanned account and collection. -/
def stepOp (alloc : Nat → Nat → Nat) (st : WriteState) (op : Op) : WriteState :=
  match op with
  | .accountId a => { st with account_id := a }
  | .collectionOp c => { st with collection := c }
  | .documentIdOp d => { st with document_id := d }
  | .valueAddAndGet num =>
      { st with assigned_counter_ids := st.assigned_counter_ids ++ [num] }
  | .bitmap isDocumentIds set =>
      if set && isDocumentIds && st.document_id == u32MAX then
        let id := alloc st.account_id st.collection
        { st with document_id := id,
                  assigned_document_ids := st.assigned_document_ids ++ [id] }
      else st
  | _ => st

/-- Interpretation of a batch from a given state: the fold of `stepOp`. -/
def interpretOps (alloc : Nat → Nat → Nat) (ops : List Op) (st : WriteState) : WriteState :=
  ops.foldl (stepOp alloc) st

/-! ## Document-id allocator scan (foundationdb/write.rs lines 193-204,
postgres/write.rs lines 257-264) -/

/-- Modelled from the spec: `DeserializeBigEndian::deserialize_be_u32` of the
store crate (outside the embedded files) decodes the 4 bytes at `offset` as a
big-endian `u32`, failing when the range is out of bounds. -/
def deserialize_be_u32 (key : Bytes) (offset : Nat) : Except Error Nat :=
  if offset + U32_LEN ≤ key.length then
    .ok (key.getD offset 0 * 16777216 + key.getD (offset + 1) 0 * 65536 +
      key.getD (offset + 2) 0 * 256 + key.getD (offset + 3) 0)
  else .error (.internalError "Failed to deserialize")

/-- `RoaringBitmap::insert`, modelled on a list with set semantics (only
membership in the taken set matters downstream). -/
def rbInsert (found : List Nat) (id : Nat) : List Nat :=
  if id ∈ found then found else found ++ [id]

/-- The inner `for` loop of the distributed-KV allocator scan over one batch
of returned values (foundationdb/write.rs lines 195-203): a key of the
expected length contributes its trailing big-endian `u32`; a key of any
other length stops the loop over this batch (`break`). -/
def fdbScanBatch (key_len : Nat) (found : List Nat) : List Bytes → Except Error (List Nat)
  | [] => .ok found
  | key :: rest =>
    if key.length = key_len then
      match deserialize_be_u32 key (key_len - U32_LEN) with
      | .ok id => fdbScanBatch key_len (rbInsert found id) rest
      | .error e => .error e
    else .ok found

/-- The outer `while` loop of the distributed-KV allocator scan
(foundationdb/write.rs lines 194-204) over the stream of value batches. -/
def fdbScanLoop (key_len : Nat) (found : List Nat) : List (List Bytes) → Except Error (List Nat)
  | [] => .ok found
  | batch :: rest =>
    match fdbScanBatch key_len found batch with
    | .ok found1 => fdbScanLoop key_len found1 rest
    | .error e => .error e

/-- The SQL allocator scan loop (postgres/write.rs lines 259-264): a key of
the expected length contributes its trailing big-endian `u32`, any other key
is skipped, and the loop continues to the end of the rows. -/
def pgScanLoop (key_len : Nat) (found : List Nat) : List Bytes → Except Error (List Nat)
  | [] => .ok found
  | key :: rest =>
    if key.length = key_len then
      match deserialize_be_u32 key (key_len - U32_LEN) with
      | .ok id => pgScanLoop key_len (rbInsert found id) rest
      | .error e => .error e
    else pgScanLoop key_len found rest

/-- Is an `Except` a success? -/
def exceptIsOk {ε α : Type} : Except ε α → Bool
  | .ok _ => true
  | .error _ => false

/-! ## Keys, byte order and the allocation conflict protocol (C6)

The key codec is an external capability of the engine; only the facts the
spec states about `DocumentIds` bitmap keys are needed: keys of one
`(account, collection)` share a common prefix and end with the document id
as 4 big-endian bytes. -/

/-- A `u32` as its 4 big-endian bytes. -/
def be32 (n : Nat) : Bytes :=
  [n / 16777216 % 256, n / 65536 % 256, n / 256 % 256, n % 256]

/-- Modelled from the spec: the Key Codec (external; consumed as a
capability) serializes a `DocumentIds` bitmap key as a subspace byte, the
account id, the collection and the trailing document id as 4 big-endian
bytes. -/
def bitmapKey (account_id collection document_id : Nat) : Bytes :=
  98 :: be32 account_id ++ collection :: be32 document_id

/-- Strict lexicographic order on byte strings (a proper prefix is
smaller), as the distributed-KV store orders its keys. -/
def bytesLt : Bytes → Bytes → Bool
  | [], [] => false
  | [], _ :: _ => true
  | _ :: _, [] => false
  | a :: as, b :: bs => a < b || (a == b && bytesLt as bs)

/-- Lexicographic order, non-strict. -/
def bytesLe (a b : Bytes) : Bool := bytesLt a b || a == b

/-- Key membership in a half-open key range `[fst, snd)`. -/
def inKeyRange (r : Bytes × Bytes) (k : Bytes) : Bool :=
  bytesLe r.1 k && bytesLt k r.2

/-- The read-conflict range the allocator declares after choosing an id
(foundationdb/write.rs lines 217-229): from the chosen bitmap key to the
bitmap key of `document_id + 1`. -/
def fdbAllocConflictRange (account_id collection document_id : Nat) : Bytes × Bytes :=
  (bitmapKey account_id collection document_id,
   bitmapKey account_id collection (document_id + 1))

/-- Modelled from the spec: the distributed-KV backend is strict
serializable with optimistic conflict detection — a transaction fails to
commit exactly when a concurrently committed transaction wrote a key inside
one of its declared read-conflict ranges. -/
def conflictsWith (committedWrites : List Bytes) (readRanges : List (Bytes × Bytes)) : Bool :=
  committedWrites.any (fun k => readRanges.any (fun r => inKeyRange r k))

/-- Modelled from the spec: `k` is the `PRIMARY KEY` of the bitmap table, so
a plain `INSERT` of a key already present raises a unique violation
(postgres/write.rs line 276 prepares `INSERT INTO b (k) VALUES ($1)`). -/
def sqlInsertUnique (table : List Bytes) (k : Bytes) : Except SqlErrCode (List Bytes) :=
  if k ∈ table then .error .uniqueViolation else .ok (table ++ [k])

/-! ## Assert-value guard (C7, C9) -/

/-- The result of the chunk-aware read `read_chunked_value`
(foundationdb/read.rs, used at foundationdb/write.rs line 258): a single
record, a reassembled chunked record, or no record. -/
inductive ChunkedValue where
  | single : Bytes → ChunkedValue
  | chunked : Bytes → ChunkedValue
  | noValue : ChunkedValue
deriving DecidableEq, Repr

/-- `Operation::AssertValue` on the distributed-KV backend
(foundationdb/write.rs lines 246-271): evaluate the predicate on the read
result, treating a failed read as a mismatch, and cancel the transaction
with `AssertValueFailed` on mismatch.  The predicate is the external pair
`assert_value.matches` / `assert_value.is_none`. -/
def fdbAssertValueOp (readResult : Except Error ChunkedValue)
    (matchesValue : Bytes → Bool) (matchesNone : Bool) : Except Error Unit :=
  let m : Bool :=
    match readResult with
    | .ok (.single bytes) => matchesValue bytes
    | .ok (.chunked bytes) => matchesValue bytes
    | .ok .noValue => matchesNone
    | .error _ => false
  if !m then .error .assertValueFailed else .ok ()

/-- `Operation::AssertValue` on the SQL backend (postgres/write.rs lines
316-339).  `row` is the `SELECT v ... FOR UPDATE` result: no row, or a row
whose value column decodes to bytes or fails to decode.  On success the pair
`(key, exists)` is recorded in `asserted_values` (an insert-in-front list
models the hash-map upsert). -/
def pgAssertValueOp (row : Option (Except Error Bytes))
    (matchesValue : Bytes → Bool) (matchesNone : Bool)
    (key : Bytes) (asserted_values : List (Bytes × Bool)) :
    Except Error (List (Bytes × Bool)) :=
  let em : Bool × Bool :=
    match row with
    | some (.ok v) => (true, matchesValue v)
    | some (.error _) => (true, false)
    | none => (false, matchesNone)
  if !em.2 then .error .assertValueFailed
  else .ok ((key, em.1) :: asserted_values)

/-- The SQL statement `ValueOp::Set` prepares. -/
inductive SetStatement where
  | updateStmt : SetStatement
  | insertStmt : SetStatement
  | upsertStmt : SetStatement
deriving DecidableEq, Repr

/-- Statement selection of `ValueOp::Set` on the SQL backend
(postgres/write.rs lines 131-155): a key recorded present by an earlier
assertion uses `UPDATE`, one recorded absent uses a plain `INSERT`, and a
key with no recorded assertion the unconditional upsert. -/
def chooseSetStatement (asserted_values : List (Bytes × Bool)) (key : Bytes) : SetStatement :=
  match asserted_values.lookup key with
  | some true => .updateStmt
  | some false => .insertStmt
  | none => .upsertStmt

/-- Modelled from the spec: the row count the SQL backend reports for each
statement of `ValueOp::Set` — `UPDATE` affects the row iff the key exists, a
plain `INSERT` inserts one row or raises a unique violation when the key
exists, and the upsert always affects one row. -/
def setRowsAffected (stmt : SetStatement) (keyExists : Bool) : Except Error Nat :=
  match stmt with
  | .updateStmt => .ok (if keyExists then 1 else 0)
  | .insertStmt => if keyExists then .error .backendError else .ok 1
  | .upsertStmt => .ok 1

/-- The zero-rows check of `ValueOp::Set` (postgres/write.rs lines 157-163):
a statement that affects no row fails the batch with `AssertValueFailed`. -/
def pgValueSetExec (stmt : SetStatement) (keyExists : Bool) : Except Error Unit :=
  match setRowsAffected stmt keyExists with
  | .error e => .error e
  | .ok n => if n = 0 then .error .assertValueFailed else .ok ()

/-! ## Purge of zero-valued counters (C8) -/

/-- `value.value().iter().all(|byte| *byte == 0)` (foundationdb/write.rs
line 314). -/
def allZeroValue (v : Bytes) : Bool := v.all (fun byte => byte == 0)

/-- The candidate collection of `FdbStore::purge_store` (foundationdb/write.rs
lines 312-318): the keys of the scanned range whose value bytes are all
zero, in scan order. -/
def collectZeroKeys : List (Bytes × Bytes) → List Bytes
  | [] => []
  | (k, v) :: rest =>
    if allZeroValue v then k :: collectZeroKeys rest else collectZeroKeys rest

/-- `0i64.to_le_bytes()` generalized: an `i64` as its 8 little-endian
two's-complement bytes. -/
def toLeBytes64 (n : Int) : Bytes :=
  let m := (n % (18446744073709551616 : Int)).toNat
  [m % 256, m / 256 % 256, m / 65536 % 256, m / 16777216 % 256,
   m / 4294967296 % 256, m / 1099511627776 % 256,
   m / 281474976710656 % 256, m / 72057594037927936 % 256]

/-- Lookup in a keyed store modelled as an association list. -/
def storeLookup (store : List (Bytes × Bytes)) (k : Bytes) : Option Bytes :=
  store.lookup k

/-- Removal of a key from the store. -/
def storeErase (store : List (Bytes × Bytes)) (k : Bytes) : List (Bytes × Bytes) :=
  store.filter (fun kv => kv.1 ≠ k)

/-- Modelled from the spec: the atomic `CompareAndClear` mutation
(foundationdb/write.rs line 332) deletes the key only if its current value
still equals the supplied parameter. -/
def compareAndClear (store : List (Bytes × Bytes)) (k param : Bytes) : List (Bytes × Bytes) :=
  if storeLookup store k = some param then storeErase store k else store

/-- The delete phase of `FdbStore::purge_store` (foundationdb/write.rs lines
326-348): the candidate keys, in chunks of 1024 per committed transaction,
each get a `CompareAndClear(key, 0i64.to_le_bytes())` mutation against the
current store state. -/
def fdbPurgeApply (current : List (Bytes × Bytes)) (delete_keys : List Bytes) :
    List (Bytes × Bytes) :=
  (chunksListAux 1024 delete_keys.length delete_keys).foldl
    (fun st chunk => chunk.foldl (fun st1 k => compareAndClear st1 k (toLeBytes64 0)) st)
    current

/-- `FdbStore::purge_store` (foundationdb/write.rs lines 293-351): scan the
counter and quota subspace ranges, collect the keys whose value bytes are
all zero, then apply the chunked `CompareAndClear` deletes.  `counterScan`
and `quotaScan` are the two range-scan snapshots and `current` the store
state at delete time (equal to the scans when nothing ran concurrently). -/
def fdbPurgeStore (counterScan quotaScan current : List (Bytes × Bytes)) :
    List (Bytes × Bytes) :=
  fdbPurgeApply current (collectZeroKeys counterScan ++ collectZeroKeys quotaScan)

/-- Modelled from the spec: `DELETE FROM t WHERE v = 0` removes exactly the
rows whose `v` is 0 (postgres/write.rs line 351), on a table with an
integer value column. -/
def sqlDeleteWhereZero (table : List (Bytes × Int)) : List (Bytes × Int) :=
  table.filter (fun kv => kv.2 ≠ 0)

/-- `PostgresStore::purge_store` (postgres/write.rs lines 346-357): the
delete statement runs on the quota table, then the counter table. -/
def pgPurgeStore (quota counter : List (Bytes × Int)) :
    List (Bytes × Int) × List (Bytes × Int) :=
  (sqlDeleteWhereZero quota, sqlDeleteWhereZero counter)

/-! ## Helper lemmas: chunking -/

theorem chunksListAux_length {α : Type} (M : Nat) (hM : 1 ≤ M) :
    ∀ (fuel : Nat) (v : List α), v.length ≤ fuel →
      (chunksListAux M fuel v).length = (v.length + M - 1) / M := by
  intro fuel
  induction fuel with
  | zero =>
    intro v hv
    have hv0 : v = [] := List.eq_nil_of_length_eq_zero (Nat.le_zero.mp hv)
    subst hv0
    simp only [chunksListAux, List.length_nil]
    rw [Nat.div_eq_of_lt (by omega)]
  | succ n ih =>
    intro v hv
    match v with
    | [] =>
      simp only [chunksListAux, List.length_nil]
      rw [Nat.div_eq_of_lt (by omega)]
    | a :: as =>
      simp only [List.length_cons] at hv
      have hdrop : (List.drop M (a :: as)).length ≤ n := by
        simp only [List.length_drop, List.length_cons]
        omega
      simp only [chunksListAux, List.length_cons]
      rw [ih (List.drop M (a :: as)) hdrop]
      simp only [List.length_drop, List.length_cons]
      rcases le_or_lt M (as.length + 1) with h | h
      · have h1 : as.length + 1 - M + M - 1 = as.length := by omega
        have h2 : as.length + 1 + M - 1 = as.length + M := by omega
        rw [h1, h2, Nat.add_div_right _ (by omega)]
      · have h1 : as.length + 1 - M = 0 := by omega
        have h2 : (0 + M - 1) / M = 0 := Nat.div_eq_of_lt (by omega)
        have h3 : (as.length + 1 + M - 1) / M = 1 := Nat.div_eq_of_lt_le (by omega) (by omega)
        rw [h1, h2, h3]

theorem chunksList_length {α : Type} (M : Nat) (hM : 1 ≤ M) (v : List α) :
    (chunksList M v).length = (v.length + M - 1) / M :=
  chunksListAux_length M hM v.length v le_rfl

theorem chunksListAux_getD {α : Type} (M : Nat) (hM : 1 ≤ M) :
    ∀ (fuel : Nat) (v : List α) (i : Nat), v.length ≤ fuel →
      i < (chunksListAux M fuel v).length →
      (chunksListAux M fuel v).getD i [] = (v.drop (i * M)).take M := by
  intro fuel
  induction fuel with
  | zero =>
    intro v i hv hi
    have hv0 : v = [] := List.eq_nil_of_length_eq_zero (Nat.le_zero.mp hv)
    subst hv0
    simp [chunksListAux] at hi
  | succ n ih =>
    intro v i hv hi
    match v with
    | [] => simp [chunksListAux] at hi
    | a :: as =>
      simp only [List.length_cons] at hv
      match i with
      | 0 => simp [chunksListAux]
      | i + 1 =>
        have hlen : (List.drop M (a :: as)).length ≤ n := by
          simp only [List.length_drop, List.length_cons]
          omega
        have hi2 : i < (chunksListAux M n (List.drop M (a :: as))).length := by
          simp only [chunksListAux, List.length_cons] at hi
          omega
        simp only [chunksListAux, List.getD_cons_succ]
        rw [ih (List.drop M (a :: as)) i hlen hi2]
        rw [List.drop_drop]
        have harith : M + i * M = (i + 1) * M := by ring
        rw [harith]

theorem chunksList_getD {α : Type} (M : Nat) (hM : 1 ≤ M) (v : List α) (i : Nat)
    (hi : i < (chunksList M v).length) :
    (chunksList M v).getD i [] = (v.drop (i * M)).take M :=
  chunksListAux_getD M hM v.length v i le_rfl hi

theorem incLast_concat (xs : Bytes) (a : Nat) : incLast (xs ++ [a]) = xs ++ [a + 1] := by
  simp [incLast, List.dropLast_concat, List.getLastD_concat]

theorem fdbSetLoop_from2 (key0 : Bytes) :
    ∀ (chunks : List Bytes) (pos : Nat), 2 ≤ pos → pos + chunks.length ≤ 255 →
      fdbSetLoop chunks pos (key0 ++ [pos - 2]) =
        .ok (expectedWritesFrom key0 pos chunks) := by
  intro chunks
  induction chunks with
  | nil => intro pos _ _; simp [fdbSetLoop, expectedWritesFrom]
  | cons c rest ih =>
    intro pos hpos hbound
    simp only [List.length_cons] at hbound
    have h0 : pos ≠ 0 := by omega
    have h1 : pos ≠ 1 := by omega
    have h255 : pos < 255 := by omega
    have hih := ih (pos + 1) (by omega) (by omega)
    have hkey : pos + 1 - 2 = pos - 1 := by omega
    rw [hkey] at hih
    have hinc : incLast (key0 ++ [pos - 2]) = key0 ++ [pos - 1] := by
      rw [incLast_concat]
      have : pos - 2 + 1 = pos - 1 := by omega
      rw [this]
    simp only [fdbSetLoop]
    rw [if_neg h0, if_neg h1, if_pos h255, hinc, hih]
    rw [expectedWritesFrom, chunkKey, if_neg h0]

theorem fdbSetLoop_ok (key : Bytes) (chunks : List Bytes) (h : chunks.length ≤ 255) :
    fdbSetLoop chunks 0 key = .ok (expectedChunkWrites key chunks) := by
  match chunks with
  | [] => simp [fdbSetLoop, expectedChunkWrites, expectedWritesFrom]
  | [c] => simp [fdbSetLoop, expectedChunkWrites, expectedWritesFrom, chunkKey]
  | c0 :: c1 :: rest =>
    simp only [List.length_cons] at h
    have hih := fdbSetLoop_from2 key rest 2 (by omega) (by omega)
    norm_num at hih
    simp [fdbSetLoop, hih, expectedChunkWrites, expectedWritesFrom, chunkKey]

theorem fdbSetLoop_err :
    ∀ (chunks : List Bytes) (pos : Nat) (key : Bytes),
      2 ≤ pos → pos ≤ 255 → 255 < pos + chunks.length →
      fdbSetLoop chunks pos key = .error (.internalError "Value too large") := by
  intro chunks
  induction chunks with
  | nil =>
    intro pos key hpos h255 hover
    simp only [List.length_nil, Nat.add_zero] at hover
    exact absurd hover (by omega)
  | cons c rest ih =>
    intro pos key hpos h255 hover
    simp only [List.length_cons] at hover
    rcases lt_or_ge pos 255 with hlt | hge
    · have hih := ih (pos + 1) (incLast key) (by omega) (by omega) (by omega)
      simp only [fdbSetLoop]
      rw [if_neg (by omega : pos ≠ 0), if_neg (by omega : pos ≠ 1), if_pos hlt, hih]
    · simp only [fdbSetLoop]
      rw [if_neg (by omega : pos ≠ 0), if_neg (by omega : pos ≠ 1),
        if_neg (by omega : ¬ pos < 255)]

theorem fdbSetLoop_err0 (key : Bytes) (chunks : List Bytes) (h : 256 ≤ chunks.length) :
    fdbSetLoop chunks 0 key = .error (.internalError "Value too large") := by
  match chunks with
  | [] => simp at h
  | [c] => simp at h
  | c0 :: c1 :: rest =>
    simp only [List.length_cons] at h
    have herr := fdbSetLoop_err rest 2 (key ++ [0]) (by omega) (by omega) (by omega)
    simp [fdbSetLoop, herr]

/-! ## C1: value chunking on the distributed-KV backend -/

/-- C1 (amended): for every non-counter `ValueOp::Set` of a non-empty value
`v` with chunk ceiling `M`, `v` is stored split into `⌈|v|/M⌉` chunks with
chunk 0 at the bare key and chunk `i > 0` at the key with the single
trailing byte `i - 1`; a value needing at most 255 chunks is written without
error, and a value needing 256 chunks or more aborts the batch with
`InternalError("Value too large")`. -/
theorem c1_chunk_protocol (M : Nat) (key v : Bytes) (hM : 1 ≤ M) (hv : v ≠ []) :
    ((v.length + M - 1) / M ≤ 255 →
      fdbValueSet M key v false = .ok (expectedChunkWrites key (chunksList M v)) ∧
      (chunksList M v).length = (v.length + M - 1) / M ∧
      ∀ i, i < (v.length + M - 1) / M →
        (chunksList M v).getD i [] = (v.drop (i * M)).take M) ∧
    (256 ≤ (v.length + M - 1) / M →
      fdbValueSet M key v false = .error (.internalError "Value too large")) := by
  have hlen : (chunksList M v).length = (v.length + M - 1) / M := chunksList_length M hM v
  have hne : v.isEmpty = false := by
    cases v with
    | nil => exact absurd rfl hv
    | cons a as => rfl
  have hset : fdbValueSet M key v false = fdbSetLoop (chunksList M v) 0 key := by
    rw [fdbValueSet, hne]
    rfl
  constructor
  · intro hbound
    refine ⟨?_, hlen, ?_⟩
    · rw [hset]
      exact fdbSetLoop_ok key (chunksList M v) (by omega)
    · intro i hi
      exact chunksList_getD M hM v i (by omega)
  · intro hbound
    rw [hset]
    exact fdbSetLoop_err0 key (chunksList M v) (by omega)

/-- Witness for C1 at `M = 2`, key `[9]`, value `[1,2,3,4,5]`: three chunks,
the first at the bare key, the others at the key extended with bytes 0
and 1. -/
theorem c1_chunk_protocol_witness :
    fdbValueSet 2 [9] [1, 2, 3, 4, 5] false =
      .ok [([9], [1, 2]), ([9, 0], [3, 4]), ([9, 1], [5])] := by
  have h := (c1_chunk_protocol 2 [9] [1, 2, 3, 4, 5] (by decide) (by decide)).1 (by decide)
  exact h.1.trans (by rfl)

/-- Counterexample to C1 as stated: with `M = 1` the value `1 :: replicate
255 1` has length `256 ≤ 256 * M`, yet the write aborts with
`InternalError("Value too large")` — the code admits at most 255 chunks
(positions 0..254), not 256. -/
theorem c1_counterexample :
    ((1 : Nat) :: List.replicate 255 1).length ≤ 256 * 1 ∧
    fdbValueSet 1 [7] ((1 : Nat) :: List.replicate 255 1) false =
      .error (.internalError "Value too large") := by
  constructor
  · simp only [List.length_cons, List.length_replicate]
    omega
  · have hlen : 256 ≤ (chunksList 1 ((1 : Nat) :: List.replicate 255 1)).length := by
      rw [chunksList_length 1 le_rfl]
      simp only [List.length_cons, List.length_replicate]
      omega
    have hcond : (!((1 : Nat) :: List.replicate 255 1).isEmpty && !false) = true := rfl
    rw [fdbValueSet, if_pos hcond]
    exact fdbSetLoop_err0 [7] _ hlen

/-! ## Helper lemmas: retry loops -/

theorem pgWriteLoop_sentinel_aux {α : Type} (elapsed : Nat → Nat) (maxAttempts maxTime : Nat) :
    ∀ (n retry_count : Nat), maxAttempts + 1 - retry_count ≤ n →
      pgWriteLoop (α := α) (fun _ => .error .retry) elapsed maxAttempts maxTime retry_count =
        .error .assertValueFailed := by
  intro n
  induction n with
  | zero =>
    intro rc h
    rw [pgWriteLoop]
    rw [dif_pos (Or.inl (by omega : rc > maxAttempts))]
  | succ n ih =>
    intro rc h
    rw [pgWriteLoop]
    by_cases hc : rc > maxAttempts ∨ elapsed rc > maxTime
    · rw [dif_pos hc]
    · rw [dif_neg hc]
      exact ih (rc + 1) (by omega)

/-! ## C2: bounded retry of recoverable failures -/

/-- C2 (amended): a retriable distributed-KV commit error and an SQL
serialization failure or deadlock re-execute the batch iff `retry_count <
MAX_COMMIT_ATTEMPTS` and `elapsed < MAX_COMMIT_TIME`, surfacing the backend
error otherwise; the SQL allocator retry sentinel re-executes iff
`retry_count ≤ MAX_COMMIT_ATTEMPTS` and `elapsed ≤ MAX_COMMIT_TIME` (one
more boundary attempt than the strict bounds), surfacing
`AssertValueFailed` otherwise; the backoff slept before each retry lies in
`50..=300` ms. -/
theorem c2_retry_policy {α : Type} (attemptF : Nat → FdbAttempt α)
    (attemptP : Nat → Except CommitError α) (elapsed : Nat → Nat)
    (maxAttempts maxTime rc : Nat) :
    (attemptF rc = .commitConflict true →
      ((rc < maxAttempts ∧ elapsed rc < maxTime →
          fdbWriteLoop attemptF elapsed maxAttempts maxTime rc =
            fdbWriteLoop attemptF elapsed maxAttempts maxTime (rc + 1)) ∧
        (¬ (rc < maxAttempts ∧ elapsed rc < maxTime) →
          fdbWriteLoop attemptF elapsed maxAttempts maxTime rc = .error .backendError))) ∧
    (∀ code, (code = .serializationFailure ∨ code = .deadlockDetected) →
      attemptP rc = .error (.postgres code) →
      ((rc < maxAttempts ∧ elapsed rc < maxTime →
          pgWriteLoop attemptP elapsed maxAttempts maxTime rc =
            pgWriteLoop attemptP elapsed maxAttempts maxTime (rc + 1)) ∧
        (¬ (rc < maxAttempts ∧ elapsed rc < maxTime) →
          pgWriteLoop attemptP elapsed maxAttempts maxTime rc = .error .backendError))) ∧
    (attemptP rc = .error .retry →
      ((rc ≤ maxAttempts ∧ elapsed rc ≤ maxTime →
          pgWriteLoop attemptP elapsed maxAttempts maxTime rc =
            pgWriteLoop attemptP elapsed maxAttempts maxTime (rc + 1)) ∧
        (¬ (rc ≤ maxAttempts ∧ elapsed rc ≤ maxTime) →
          pgWriteLoop attemptP elapsed maxAttempts maxTime rc = .error .assertValueFailed))) ∧
    (∀ seed, 50 ≤ gen_range_backoff seed ∧ gen_range_backoff seed ≤ 300) := by
  refine ⟨?_, ?_, ?_, ?_⟩
  · intro hF
    constructor
    · intro hcond
      conv_lhs => rw [fdbWriteLoop]
      simp only [hF]
      rw [dif_pos hcond]
      simp
    · intro hcond
      rw [fdbWriteLoop]
      simp only [hF]
      rw [dif_neg hcond]
  · intro code hcode hP
    constructor
    · intro hcond
      conv_lhs => rw [pgWriteLoop]
      simp only [hP]
      rw [dif_pos ⟨hcode, hcond⟩]
    · intro hcond
      rw [pgWriteLoop]
      simp only [hP]
      rw [dif_neg (by tauto)]
      rcases hcode with h | h <;> subst h <;> simp
  · intro hP
    constructor
    · intro hcond
      conv_lhs => rw [pgWriteLoop]
      simp only [hP]
      rw [dif_neg (by omega)]
    · intro hcond
      rw [pgWriteLoop]
      simp only [hP]
      rw [dif_pos (by omega)]
  · intro seed
    constructor
    · simp [gen_range_backoff]
    · have : seed % 251 ≤ 250 := by omega
      simp [gen_range_backoff]
      omega

/-- Counterexample to C2 as stated: with `MAX_COMMIT_ATTEMPTS = 2` an
allocator retry sentinel at `retry_count = 2` (not strictly below the bound)
is still re-executed, so an attempt at `retry_count = 3` can commit —
whereas retrying only while `retry_count < MAX_COMMIT_ATTEMPTS` would have
surfaced `AssertValueFailed` without reaching it. -/
theorem c2_counterexample :
    pgWriteLoop (α := Nat) (fun n => if n = 3 then .ok 0 else .error .retry)
      (fun _ => 0) 2 100 0 = .ok 0 ∧ ¬ (2 < 2) := by
  constructor
  · simp [pgWriteLoop]
  · omega

/-! ## C3: AssertValueFailed is never retried, the allocator sentinel is -/

/-- C3: an `AssertValue` mismatch surfaces `AssertValueFailed` from the very
first attempt on both backends with no retry (the result is fixed by attempt
0 whatever the later attempts and the budget are); an SQL unique violation
raised by the document-id bitmap insert — and only that — is classified as
the retry sentinel, which after the retry budget is exhausted surfaces
`AssertValueFailed`; a unique violation on any other operation surfaces
`AssertValueFailed` at once. -/
theorem c3_assert_value_retry_policy {α : Type} (attemptF : Nat → FdbAttempt α)
    (attemptP : Nat → Except CommitError α) (elapsed : Nat → Nat)
    (maxAttempts maxTime : Nat) :
    (attemptF 0 = .opError .assertValueFailed →
      fdbWriteLoop attemptF elapsed maxAttempts maxTime 0 = .error .assertValueFailed) ∧
    (attemptP 0 = .error (.internal .assertValueFailed) →
      pgWriteLoop attemptP elapsed maxAttempts maxTime 0 = .error .assertValueFailed) ∧
    (attemptP 0 = .error (.postgres .uniqueViolation) →
      pgWriteLoop attemptP elapsed maxAttempts maxTime 0 = .error .assertValueFailed) ∧
    (∀ is_document_id code,
      classifyBitmapExecError is_document_id code = .retry ↔
        is_document_id = true ∧ code = .uniqueViolation) ∧
    pgWriteLoop (α := α) (fun _ => .error .retry) elapsed maxAttempts maxTime 0 =
      .error .assertValueFailed := by
  refine ⟨?_, ?_, ?_, ?_, ?_⟩
  · intro hF
    rw [fdbWriteLoop]
    simp only [hF]
  · intro hP
    rw [pgWriteLoop]
    simp only [hP]
  · intro hP
    rw [pgWriteLoop]
    simp only [hP]
    rw [dif_neg (by simp)]
    simp
  · intro b code
    cases b <;> cases code <;> decide
  · exact pgWriteLoop_sentinel_aux elapsed maxAttempts maxTime (maxAttempts + 1) 0 (by omega)

/-! ## C10: the SQL document-id bitmap insert is a plain INSERT -/

/-- C10: on the SQL backend every `Bitmap{DocumentIds, set=true}` prepares
the plain `INSERT` without `ON CONFLICT` — the statement choice depends
only on the class and the set flag, and with a preset document id the
allocator does not run yet the statement is the same; its unique violation
is classified as the retry sentinel; and a batch whose every attempt raises
the sentinel ends in `AssertValueFailed` once the budget is exhausted. -/
theorem c10_docid_insert_not_idempotent {α : Type} (elapsed : Nat → Nat)
    (maxAttempts maxTime : Nat) :
    pgBitmapStatement true true = .insertPlain ∧
    (∀ st : WriteState, st.document_id ≠ u32MAX →
      allocTriggered st (.bitmap true true) = false) ∧
    classifyBitmapExecError true .uniqueViolation = .retry ∧
    pgWriteLoop (α := α) (fun _ => .error .retry) elapsed maxAttempts maxTime 0 =
      .error .assertValueFailed := by
  refine ⟨rfl, ?_, rfl, ?_⟩
  · intro st h
    simp only [allocTriggered, Bool.true_and]
    exact beq_eq_false_iff_ne.mpr h
  · exact pgWriteLoop_sentinel_aux elapsed maxAttempts maxTime (maxAttempts + 1) 0 (by omega)

/-! ## C4: the document-id allocator trigger and its effects -/

/-- C4: for a `Bitmap` operation the allocator runs iff `set = true`, the
class is `DocumentIds` and the context document id is the sentinel
`u32::MAX`; when it runs, the chosen id becomes the context document id
(visible to every subsequent operation through the fold) and is appended to
the batch's assigned document ids; no operation other than `DocumentId` and
an allocating `Bitmap` changes the context document id. -/
theorem c4_allocator_trigger (alloc : Nat → Nat → Nat) (st : WriteState) (op : Op) :
    (allocTriggered st op = true ↔
      (∃ isDocumentIds set, op = .bitmap isDocumentIds set ∧ isDocumentIds = true ∧
        set = true) ∧ st.document_id = u32MAX) ∧
    (allocTriggered st op = true →
      (stepOp alloc st op).document_id = alloc st.account_id st.collection ∧
      (stepOp alloc st op).assigned_document_ids =
        st.assigned_document_ids ++ [alloc st.account_id st.collection]) ∧
    (allocTriggered st op = false → (∀ d, op ≠ .documentIdOp d) →
      (stepOp alloc st op).document_id = st.document_id) ∧
    (∀ rest, interpretOps alloc (op :: rest) st =
      interpretOps alloc rest (stepOp alloc st op)) := by
  refine ⟨?_, ?_, ?_, ?_⟩
  · constructor
    · intro h
      match op with
      | .bitmap isDocumentIds set =>
        simp only [allocTriggered, Bool.and_eq_true, beq_iff_eq] at h
        exact ⟨⟨isDocumentIds, set, rfl, h.1.2, h.1.1⟩, h.2⟩
      | .accountId a => simp [allocTriggered] at h
      | .collectionOp c => simp [allocTriggered] at h
      | .documentIdOp d => simp [allocTriggered] at h
      | .valueSet => simp [allocTriggered] at h
      | .valueAtomicAdd => simp [allocTriggered] at h
      | .valueAddAndGet n => simp [allocTriggered] at h
      | .valueClear => simp [allocTriggered] at h
      | .indexOp b => simp [allocTriggered] at h
      | .logOp => simp [allocTriggered] at h
      | .assertValueOp => simp [allocTriggered] at h
    · rintro ⟨⟨isDocumentIds, set, rfl, rfl, rfl⟩, hdoc⟩
      simp [allocTriggered, hdoc]
  · intro h
    match op with
    | .bitmap isDocumentIds set =>
      simp only [allocTriggered] at h
      simp only [stepOp, h]
      exact ⟨rfl, rfl⟩
    | .accountId a => simp [allocTriggered] at h
    | .collectionOp c => simp [allocTriggered] at h
    | .documentIdOp d => simp [allocTriggered] at h
    | .valueSet => simp [allocTriggered] at h
    | .valueAtomicAdd => simp [allocTriggered] at h
    | .valueAddAndGet n => simp [allocTriggered] at h
    | .valueClear => simp [allocTriggered] at h
    | .indexOp b => simp [allocTriggered] at h
    | .logOp => simp [allocTriggered] at h
    | .assertValueOp => simp [allocTriggered] at h
  · intro h hnotdoc
    match op with
    | .bitmap isDocumentIds set =>
      simp only [allocTriggered] at h
      simp [stepOp, h]
    | .accountId a => rfl
    | .collectionOp c => rfl
    | .documentIdOp d => exact absurd rfl (hnotdoc d)
    | .valueSet => rfl
    | .valueAtomicAdd => rfl
    | .valueAddAndGet n => rfl
    | .valueClear => rfl
    | .indexOp b => rfl
    | .logOp => rfl
    | .assertValueOp => rfl
  · intro rest
    rfl

/-! ## Helper lemmas: allocator scan -/

theorem rbInsert_mem (found : List Nat) (id x : Nat) :
    x ∈ rbInsert found id ↔ x = id ∨ x ∈ found := by
  unfold rbInsert
  by_cases h : id ∈ found
  · rw [if_pos h]
    constructor
    · exact Or.inr
    · rintro (rfl | hx)
      · exact h
      · exact hx
  · rw [if_neg h]
    simp only [List.mem_append, List.mem_singleton]
    tauto

theorem deserialize_be_u32_exists (key : Bytes) (key_len : Nat) (h4 : 4 ≤ key_len)
    (hlen : key.length = key_len) :
    ∃ id, deserialize_be_u32 key (key_len - U32_LEN) = .ok id := by
  rw [deserialize_be_u32, if_pos (by simp only [U32_LEN]; omega)]
  exact ⟨_, rfl⟩

theorem pgScanLoop_spec (key_len : Nat) (h4 : 4 ≤ key_len) :
    ∀ (keys : List Bytes) (found : List Nat),
      ∃ found1, pgScanLoop key_len found keys = .ok found1 ∧
        ∀ id, id ∈ found1 ↔ id ∈ found ∨
          ∃ k, k ∈ keys ∧ k.length = key_len ∧
            deserialize_be_u32 k (key_len - U32_LEN) = .ok id := by
  intro keys
  induction keys with
  | nil =>
    intro found
    exact ⟨found, rfl, by simp⟩
  | cons k rest ih =>
    intro found
    by_cases hk : k.length = key_len
    · obtain ⟨id0, hid0⟩ := deserialize_be_u32_exists k key_len h4 hk
      obtain ⟨found1, heq, hmem⟩ := ih (rbInsert found id0)
      refine ⟨found1, ?_, ?_⟩
      · simp only [pgScanLoop]
        rw [if_pos hk, hid0]
        exact heq
      · intro id
        rw [hmem id, rbInsert_mem]
        constructor
        · rintro ((rfl | hf) | ⟨k1, hk1, hl1, hd1⟩)
          · exact Or.inr ⟨k, List.mem_cons_self k rest, hk, hid0⟩
          · exact Or.inl hf
          · exact Or.inr ⟨k1, List.mem_cons_of_mem k hk1, hl1, hd1⟩
        · rintro (hf | ⟨k1, hk1, hl1, hd1⟩)
          · exact Or.inl (Or.inr hf)
          · rcases List.mem_cons.mp hk1 with rfl | hk1r
            · rw [hid0] at hd1
              cases hd1
              exact Or.inl (Or.inl rfl)
            · exact Or.inr ⟨k1, hk1r, hl1, hd1⟩
    · obtain ⟨found1, heq, hmem⟩ := ih found
      refine ⟨found1, ?_, ?_⟩
      · simp only [pgScanLoop]
        rw [if_neg hk]
        exact heq
      · intro id
        rw [hmem id]
        constructor
        · rintro (hf | ⟨k1, hk1, hl1, hd1⟩)
          · exact Or.inl hf
          · exact Or.inr ⟨k1, List.mem_cons_of_mem k hk1, hl1, hd1⟩
        · rintro (hf | ⟨k1, hk1, hl1, hd1⟩)
          · exact Or.inl hf
          · rcases List.mem_cons.mp hk1 with rfl | hk1r
            · exact absurd hl1 hk
            · exact Or.inr ⟨k1, hk1r, hl1, hd1⟩

theorem fdbScanBatch_spec (key_len : Nat) (h4 : 4 ≤ key_len) :
    ∀ (keys : List Bytes) (found : List Nat),
      ∃ found1, fdbScanBatch key_len found keys = .ok found1 ∧
        ∀ id, id ∈ found1 ↔ id ∈ found ∨
          ∃ k, k ∈ keys.takeWhile (fun k1 => k1.length == key_len) ∧
            deserialize_be_u32 k (key_len - U32_LEN) = .ok id := by
  intro keys
  induction keys with
  | nil =>
    intro found
    exact ⟨found, rfl, by simp⟩
  | cons k rest ih =>
    intro found
    by_cases hk : k.length = key_len
    · obtain ⟨id0, hid0⟩ := deserialize_be_u32_exists k key_len h4 hk
      obtain ⟨found1, heq, hmem⟩ := ih (rbInsert found id0)
      have htake : (k :: rest).takeWhile (fun k1 => k1.length == key_len) =
          k :: rest.takeWhile (fun k1 => k1.length == key_len) := by
        rw [List.takeWhile_cons_of_pos]
        simp [hk]
      refine ⟨found1, ?_, ?_⟩
      · simp only [fdbScanBatch]
        rw [if_pos hk, hid0]
        exact heq
      · intro id
        rw [hmem id, rbInsert_mem, htake]
        constructor
        · rintro ((rfl | hf) | ⟨k1, hk1, hd1⟩)
          · exact Or.inr ⟨k, List.mem_cons_self _ _, hid0⟩
          · exact Or.inl hf
          · exact Or.inr ⟨k1, List.mem_cons_of_mem k hk1, hd1⟩
        · rintro (hf | ⟨k1, hk1, hd1⟩)
          · exact Or.inl (Or.inr hf)
          · rcases List.mem_cons.mp hk1 with rfl | hk1r
            · rw [hid0] at hd1
              cases hd1
              exact Or.inl (Or.inl rfl)
            · exact Or.inr ⟨k1, hk1r, hd1⟩
    · have htake : (k :: rest).takeWhile (fun k1 => k1.length == key_len) = [] := by
        rw [List.takeWhile_cons_of_neg]
        simp [hk]
      refine ⟨found, ?_, ?_⟩
      · simp only [fdbScanBatch]
        rw [if_neg hk]
      · intro id
        rw [htake]
        simp

theorem fdbScanLoop_spec (key_len : Nat) (h4 : 4 ≤ key_len) :
    ∀ (batches : List (List Bytes)) (found : List Nat),
      ∃ found1, fdbScanLoop key_len found batches = .ok found1 ∧
        ∀ id, id ∈ found1 ↔ id ∈ found ∨
          ∃ b, b ∈ batches ∧ ∃ k, k ∈ b.takeWhile (fun k1 => k1.length == key_len) ∧
            deserialize_be_u32 k (key_len - U32_LEN) = .ok id := by
  intro batches
  induction batches with
  | nil =>
    intro found
    exact ⟨found, rfl, by simp⟩
  | cons b rest ih =>
    intro found
    obtain ⟨found1, heq1, hmem1⟩ := fdbScanBatch_spec key_len h4 b found
    obtain ⟨found2, heq2, hmem2⟩ := ih found1
    refine ⟨found2, ?_, ?_⟩
    · simp only [fdbScanLoop]
      rw [heq1]
      exact heq2
    · intro id
      rw [hmem2 id, hmem1 id]
      constructor
      · rintro ((hf | ⟨k1, hk1, hd1⟩) | ⟨b1, hb1, k1, hk1, hd1⟩)
        · exact Or.inl hf
        · exact Or.inr ⟨b, List.mem_cons_self _ _, k1, hk1, hd1⟩
        · exact Or.inr ⟨b1, List.mem_cons_of_mem b hb1, k1, hk1, hd1⟩
      · rintro (hf | ⟨b1, hb1, k1, hk1, hd1⟩)
        · exact Or.inl (Or.inl hf)
        · rcases List.mem_cons.mp hb1 with rfl | hb1r
          · exact Or.inl (Or.inr ⟨k1, hk1, hd1⟩)
          · exact Or.inr ⟨b1, hb1r, k1, hk1, hd1⟩

/-! ## C5: which scanned keys feed the taken-id set -/

/-- C5 (amended): during document-id allocation every scanned key of the
expected length contributes its trailing 4 bytes, decoded as a big-endian
`u32`, to the taken set, and keys of a different length contribute nothing —
with one qualification on the distributed-KV backend: its inner loop stops
at the first key of a different length within a batch of returned values, so
only the keys before that break (the `takeWhile` prefix of each batch) are
inserted, and an equal-length key after it in the same batch is omitted.
The SQL loop omits no equal-length key. -/
theorem c5_scan_taken_ids (key_len : Nat) (h4 : 4 ≤ key_len) :
    (∀ (keys : List Bytes) (found : List Nat),
      exceptIsOk (pgScanLoop key_len found keys) = true) ∧
    (∀ (keys : List Bytes) (found found1 : List Nat),
      pgScanLoop key_len found keys = .ok found1 →
      ∀ id, id ∈ found1 ↔ id ∈ found ∨
        ∃ k, k ∈ keys ∧ k.length = key_len ∧
          deserialize_be_u32 k (key_len - U32_LEN) = .ok id) ∧
    (∀ (batches : List (List Bytes)) (found : List Nat),
      exceptIsOk (fdbScanLoop key_len found batches) = true) ∧
    (∀ (batches : List (List Bytes)) (found found1 : List Nat),
      fdbScanLoop key_len found batches = .ok found1 →
      ∀ id, id ∈ found1 ↔ id ∈ found ∨
        ∃ b, b ∈ batches ∧ ∃ k, k ∈ b.takeWhile (fun k1 => k1.length == key_len) ∧
          deserialize_be_u32 k (key_len - U32_LEN) = .ok id) := by
  refine ⟨?_, ?_, ?_, ?_⟩
  · intro keys found
    obtain ⟨found1, heq, -⟩ := pgScanLoop_spec key_len h4 keys found
    rw [heq]
    rfl
  · intro keys found found1 heq1
    obtain ⟨found2, heq2, hmem⟩ := pgScanLoop_spec key_len h4 keys found
    rw [heq1] at heq2
    cases heq2
    exact hmem
  · intro batches found
    obtain ⟨found1, heq, -⟩ := fdbScanLoop_spec key_len h4 batches found
    rw [heq]
    rfl
  · intro batches found found1 heq1
    obtain ⟨found2, heq2, hmem⟩ := fdbScanLoop_spec key_len h4 batches found
    rw [heq1] at heq2
    cases heq2
    exact hmem

/-- Witness for C5 at `key_len = 5`: the scan loop of the SQL backend
succeeds on a singleton key list. -/
theorem c5_scan_taken_ids_witness :
    exceptIsOk (pgScanLoop 5 [] [[7, 0, 0, 0, 1]]) = true :=
  (c5_scan_taken_ids 5 (by decide)).1 [[7, 0, 0, 0, 1]] []

/-- Counterexample to C5 as stated: three keys in ascending key order, the
middle one longer (a sub-key of a different schema).  The distributed-KV
loop inserts id 1, hits the longer key and breaks, so the equal-length key
`[7,0,0,0,2]` in the same batch is omitted from the taken set even though
its length equals the length of the range's begin key and it decodes to
id 2. -/
theorem c5_counterexample :
    fdbScanLoop 5 [] [[[7, 0, 0, 0, 1], [7, 0, 0, 0, 1, 9], [7, 0, 0, 0, 2]]] = .ok [1] ∧
    ([7, 0, 0, 0, 2] : Bytes).length = 5 ∧
    deserialize_be_u32 [7, 0, 0, 0, 2] (5 - U32_LEN) = .ok 2 ∧
    bytesLt [7, 0, 0, 0, 1] [7, 0, 0, 0, 1, 9] = true ∧
    bytesLt [7, 0, 0, 0, 1, 9] [7, 0, 0, 0, 2] = true ∧
    ¬ (2 : Nat) ∈ [1] := by
  refine ⟨rfl, rfl, rfl, rfl, rfl, by decide⟩

/-! ## Helper lemmas: byte order and bitmap keys -/

theorem bytesLe_refl (k : Bytes) : bytesLe k k = true := by
  simp [bytesLe]

theorem bytesLt_append_left (p x y : Bytes) :
    bytesLt (p ++ x) (p ++ y) = bytesLt x y := by
  induction p with
  | nil => rfl
  | cons a p ih =>
    simp only [List.cons_append, List.append_eq, bytesLt]
    rw [ih]
    simp

theorem be32_lt_succ (a : Nat) (h : a + 1 < 4294967296) :
    bytesLt (be32 a) (be32 (a + 1)) = true := by
  simp only [be32, bytesLt, Bool.or_eq_true, Bool.and_eq_true, decide_eq_true_eq,
    beq_iff_eq, Bool.and_false, Bool.or_false]
  omega

theorem bitmapKey_lt_succ (a c id : Nat) (h : id + 1 < 4294967296) :
    bytesLt (bitmapKey a c id) (bitmapKey a c (id + 1)) = true := by
  have hform : ∀ i, bitmapKey a c i = (98 :: be32 a ++ [c]) ++ be32 i := fun i => rfl
  rw [hform id, hform (id + 1), bytesLt_append_left]
  exact be32_lt_succ id h

/-! ## C6: concurrent allocators never commit the same id -/

/-- C6: two concurrent document-id allocations over the same account and
collection never both commit the same id.  On the distributed-KV backend
the allocator declares the read-conflict range `[chosen_key, next_key)`, so
a winner's write of the same chosen bitmap key lies inside the loser's
range and the loser's commit conflicts; conversely a loser that commits
without conflict chose a different id.  On the SQL backend the plain
`INSERT` of an already-present bitmap key raises a unique violation, which
is classified as the retry sentinel, and two successful inserts prove the
ids differ. -/
theorem c6_alloc_no_collision (account_id collection id1 id2 : Nat)
    (h1 : id1 + 1 < 4294967296) (h2 : id2 + 1 < 4294967296) :
    (id1 = id2 →
      conflictsWith [bitmapKey account_id collection id1]
        [fdbAllocConflictRange account_id collection id2] = true) ∧
    (conflictsWith [bitmapKey account_id collection id1]
        [fdbAllocConflictRange account_id collection id2] = false → id1 ≠ id2) ∧
    (∀ table, bitmapKey account_id collection id2 ∈ table →
      sqlInsertUnique table (bitmapKey account_id collection id2) =
        .error .uniqueViolation) ∧
    classifyBitmapExecError true .uniqueViolation = .retry ∧
    (∀ table table1 table2,
      sqlInsertUnique table (bitmapKey account_id collection id1) = .ok table1 →
      sqlInsertUnique table1 (bitmapKey account_id collection id2) = .ok table2 →
      id1 ≠ id2) := by
  have hconf : id1 = id2 →
      conflictsWith [bitmapKey account_id collection id1]
        [fdbAllocConflictRange account_id collection id2] = true := by
    rintro rfl
    simp only [conflictsWith, fdbAllocConflictRange, inKeyRange, List.any_cons,
      List.any_nil, Bool.or_false]
    rw [bytesLe_refl, bitmapKey_lt_succ account_id collection id1 h1]
    rfl
  refine ⟨hconf, ?_, ?_, rfl, ?_⟩
  · intro hfalse heq
    rw [hconf heq] at hfalse
    cases hfalse
  · intro table hmem
    rw [sqlInsertUnique, if_pos hmem]
  · intro table table1 table2 hins1 hins2 heqid
    subst heqid
    rw [sqlInsertUnique] at hins1 hins2
    by_cases hmem : bitmapKey account_id collection id1 ∈ table
    · rw [if_pos hmem] at hins1
      exact Except.noConfusion hins1
    · rw [if_neg hmem] at hins1
      cases hins1
      rw [if_pos (by simp)] at hins2
      exact Except.noConfusion hins2

/-- Witness for C6: with both allocators choosing id 5 over account 1 and
collection 2, the loser's commit conflicts. -/
theorem c6_alloc_no_collision_witness :
    conflictsWith [bitmapKey 1 2 5] [fdbAllocConflictRange 1 2 5] = true :=
  (c6_alloc_no_collision 1 2 5 5 (by decide) (by decide)).1 rfl

/-! ## C7: assert-then-set statement selection on the SQL backend -/

/-- C7: a successful `AssertValue` records under the asserted key whether the
row existed; a later `ValueOp::Set` on that key chooses `UPDATE` when the
key was recorded present, a plain `INSERT` when recorded absent, and the
unconditional upsert only when no assertion was recorded; a statement that
affects zero rows fails the batch with `AssertValueFailed`. -/
theorem c7_assert_then_set (matchesValue : Bytes → Bool) (matchesNone : Bool)
    (key : Bytes) (asserted_values : List (Bytes × Bool)) (v : Bytes) :
    (matchesValue v = true →
      pgAssertValueOp (some (.ok v)) matchesValue matchesNone key asserted_values =
        .ok ((key, true) :: asserted_values)) ∧
    (matchesNone = true →
      pgAssertValueOp none matchesValue matchesNone key asserted_values =
        .ok ((key, false) :: asserted_values)) ∧
    chooseSetStatement ((key, true) :: asserted_values) key = .updateStmt ∧
    chooseSetStatement ((key, false) :: asserted_values) key = .insertStmt ∧
    (asserted_values.lookup key = none →
      chooseSetStatement asserted_values key = .upsertStmt) ∧
    (∀ stmt keyExists, setRowsAffected stmt keyExists = .ok 0 →
      pgValueSetExec stmt keyExists = .error .assertValueFailed) := by
  refine ⟨?_, ?_, ?_, ?_, ?_, ?_⟩
  · intro h
    simp [pgAssertValueOp, h]
  · intro h
    simp [pgAssertValueOp, h]
  · simp [chooseSetStatement, List.lookup]
  · simp [chooseSetStatement, List.lookup]
  · intro h
    simp [chooseSetStatement, h]
  · intro stmt keyExists h
    cases stmt <;> cases keyExists <;> simp_all [setRowsAffected, pgValueSetExec]

/-! ## C9: a failed read or decode during AssertValue is a mismatch -/

/-- C9: on both backends an error while reading or decoding the current
value during `AssertValue` is treated as an assertion mismatch: the batch
fails with `AssertValueFailed` and the underlying error does not surface. -/
theorem c9_read_error_is_mismatch (matchesValue : Bytes → Bool) (matchesNone : Bool)
    (key : Bytes) (asserted_values : List (Bytes × Bool)) (e : Error) :
    fdbAssertValueOp (.error e) matchesValue matchesNone = .error .assertValueFailed ∧
    pgAssertValueOp (some (.error e)) matchesValue matchesNone key asserted_values =
      .error .assertValueFailed :=
  ⟨rfl, rfl⟩

/-! ## Helper lemmas: purge -/

theorem storeLookup_erase (store : List (Bytes × Bytes)) (k k1 : Bytes) :
    storeLookup (storeErase store k1) k =
      if k = k1 then none else storeLookup store k := by
  induction store with
  | nil => simp [storeErase, storeLookup]
  | cons kv rest ih =>
    obtain ⟨a, v⟩ := kv
    by_cases hak1 : a = k1
    · have herase : storeErase ((a, v) :: rest) k1 = storeErase rest k1 := by
        simp [storeErase, List.filter, hak1]
      rw [herase, ih]
      by_cases hk : k = k1
      · simp [hk]
      · rw [if_neg hk, if_neg hk]
        have hne : k ≠ a := by rw [hak1]; exact hk
        have hlk : storeLookup ((a, v) :: rest) k = storeLookup rest k := by
          simp [storeLookup, List.lookup, beq_false_of_ne hne]
        rw [hlk]
    · have herase : storeErase ((a, v) :: rest) k1 = (a, v) :: storeErase rest k1 := by
        simp [storeErase, List.filter, hak1]
      rw [herase]
      by_cases hka : k = a
      · subst hka
        have h1 : storeLookup ((k, v) :: storeErase rest k1) k = some v := by
          simp [storeLookup, List.lookup]
        have h2 : storeLookup ((k, v) :: rest) k = some v := by
          simp [storeLookup, List.lookup]
        rw [h1, if_neg hak1, h2]
      · have h1 : storeLookup ((a, v) :: storeErase rest k1) k =
            storeLookup (storeErase rest k1) k := by
          simp [storeLookup, List.lookup, beq_false_of_ne hka]
        have h2 : storeLookup ((a, v) :: rest) k = storeLookup rest k := by
          simp [storeLookup, List.lookup, beq_false_of_ne hka]
        rw [h1, ih, h2]

theorem storeLookup_compareAndClear (store : List (Bytes × Bytes)) (k k1 param : Bytes) :
    storeLookup (compareAndClear store k1 param) k =
      if k = k1 ∧ storeLookup store k = some param then none
      else storeLookup store k := by
  rw [compareAndClear]
  by_cases hc : storeLookup store k1 = some param
  · rw [if_pos hc, storeLookup_erase]
    by_cases hk : k = k1
    · subst hk
      rw [if_pos rfl, if_pos ⟨rfl, hc⟩]
    · rw [if_neg hk, if_neg (by tauto)]
  · rw [if_neg hc]
    by_cases hk : k = k1
    · subst hk
      rw [if_neg (by tauto)]
    · rw [if_neg (by tauto)]

theorem storeLookup_foldl_cac (param : Bytes) :
    ∀ (ks : List Bytes) (store : List (Bytes × Bytes)) (k : Bytes),
      storeLookup (ks.foldl (fun st k1 => compareAndClear st k1 param) store) k =
        if k ∈ ks ∧ storeLookup store k = some param then none
        else storeLookup store k := by
  intro ks
  induction ks with
  | nil =>
    intro store k
    simp
  | cons k1 rest ih =>
    intro store k
    simp only [List.foldl_cons]
    rw [ih, storeLookup_compareAndClear]
    by_cases h1 : k = k1 <;> by_cases h2 : storeLookup store k = some param <;>
      by_cases h3 : k ∈ rest <;>
      simp [h1, h2, h3, List.mem_cons]

theorem foldl_chunks_eq {α β : Type} (f : β → α → β) :
    ∀ (ll : List (List α)) (init : β),
      ll.foldl (fun st chunk => chunk.foldl f st) init = ll.flatten.foldl f init := by
  intro ll
  induction ll with
  | nil => intro init; rfl
  | cons l rest ih =>
    intro init
    simp only [List.foldl_cons, List.flatten_cons, List.foldl_append]
    exact ih (l.foldl f init)

theorem chunksListAux_flatten {α : Type} (M : Nat) (hM : 1 ≤ M) :
    ∀ (fuel : Nat) (v : List α), v.length ≤ fuel →
      (chunksListAux M fuel v).flatten = v := by
  intro fuel
  induction fuel with
  | zero =>
    intro v hv
    have hv0 : v = [] := List.eq_nil_of_length_eq_zero (Nat.le_zero.mp hv)
    subst hv0
    rfl
  | succ n ih =>
    intro v hv
    match v with
    | [] => rfl
    | a :: as =>
      simp only [List.length_cons] at hv
      simp only [chunksListAux, List.flatten_cons]
      rw [ih (List.drop M (a :: as))
        (by simp only [List.length_drop, List.length_cons]; omega)]
      exact List.take_append_drop M (a :: as)

theorem storeLookup_fdbPurgeApply (current : List (Bytes × Bytes))
    (delete_keys : List Bytes) (k : Bytes) :
    storeLookup (fdbPurgeApply current delete_keys) k =
      if k ∈ delete_keys ∧ storeLookup current k = some (toLeBytes64 0) then none
      else storeLookup current k := by
  rw [fdbPurgeApply, foldl_chunks_eq,
    chunksListAux_flatten 1024 (by omega) delete_keys.length delete_keys le_rfl]
  exact storeLookup_foldl_cac (toLeBytes64 0) delete_keys current k

theorem mem_collectZeroKeys :
    ∀ (scan : List (Bytes × Bytes)) (k : Bytes),
      k ∈ collectZeroKeys scan ↔ ∃ v, (k, v) ∈ scan ∧ allZeroValue v = true := by
  intro scan
  induction scan with
  | nil => intro k; simp [collectZeroKeys]
  | cons kv rest ih =>
    intro k
    obtain ⟨a, v⟩ := kv
    simp only [collectZeroKeys]
    by_cases hz : allZeroValue v = true
    · rw [if_pos hz]
      rw [List.mem_cons, ih]
      constructor
      · rintro (rfl | ⟨v1, hv1, hz1⟩)
        · exact ⟨v, List.mem_cons_self _ _, hz⟩
        · exact ⟨v1, List.mem_cons_of_mem _ hv1, hz1⟩
      · rintro ⟨v1, hv1, hz1⟩
        rcases List.mem_cons.mp hv1 with heq | hmem
        · cases heq
          exact Or.inl rfl
        · exact Or.inr ⟨v1, hmem, hz1⟩
    · rw [if_neg hz, ih]
      constructor
      · rintro ⟨v1, hv1, hz1⟩
        exact ⟨v1, List.mem_cons_of_mem _ hv1, hz1⟩
      · rintro ⟨v1, hv1, hz1⟩
        rcases List.mem_cons.mp hv1 with heq | hmem
        · cases heq
          exact absurd hz1 hz
        · exact ⟨v1, hmem, hz1⟩

theorem storeLookup_mem (s : List (Bytes × Bytes)) (k v : Bytes)
    (h : storeLookup s k = some v) : (k, v) ∈ s := by
  induction s with
  | nil => simp [storeLookup] at h
  | cons kv rest ih =>
    obtain ⟨a, w⟩ := kv
    by_cases hka : k = a
    · subst hka
      simp only [storeLookup, List.lookup, beq_self_eq_true] at h
      cases h
      exact List.mem_cons_self _ _
    · have hlk : storeLookup ((a, w) :: rest) k = storeLookup rest k := by
        simp [storeLookup, List.lookup, beq_false_of_ne hka]
      rw [hlk] at h
      exact List.mem_cons_of_mem _ (ih h)

/-! ## C8: purge removes exactly the zero-valued counter and quota keys -/

/-- C8: `purge_store` removes from the counter and quota subspaces exactly
the keys whose stored value is zero.  The SQL backend keeps a row iff its
value is nonzero; the distributed-KV backend deletes a key iff it was
collected as all-zero during the scan and its value still equals
`0i64.to_le_bytes()` when the chunked `CompareAndClear` runs, so a key
concurrently changed to a non-zero value between scan and delete is left
intact, and with no concurrent change exactly the zero-valued keys go. -/
theorem c8_purge_only_zeros (quota counter : List (Bytes × Int))
    (counterScan quotaScan current : List (Bytes × Bytes)) (k : Bytes) :
    (∀ k1 v, (k1, v) ∈ (pgPurgeStore quota counter).1 ↔ (k1, v) ∈ quota ∧ v ≠ 0) ∧
    (∀ k1 v, (k1, v) ∈ (pgPurgeStore quota counter).2 ↔ (k1, v) ∈ counter ∧ v ≠ 0) ∧
    (storeLookup (fdbPurgeStore counterScan quotaScan current) k =
      if k ∈ collectZeroKeys counterScan ++ collectZeroKeys quotaScan ∧
          storeLookup current k = some (toLeBytes64 0) then none
      else storeLookup current k) ∧
    (storeLookup current k ≠ some (toLeBytes64 0) →
      storeLookup (fdbPurgeStore counterScan quotaScan current) k =
        storeLookup current k) ∧
    (∀ s : List (Bytes × Bytes),
      storeLookup (fdbPurgeStore s [] s) k =
        if storeLookup s k = some (toLeBytes64 0) then none
        else storeLookup s k) := by
  have hfdb : ∀ (cs qs cur : List (Bytes × Bytes)),
      storeLookup (fdbPurgeStore cs qs cur) k =
        if k ∈ collectZeroKeys cs ++ collectZeroKeys qs ∧
            storeLookup cur k = some (toLeBytes64 0) then none
        else storeLookup cur k := by
    intro cs qs cur
    rw [fdbPurgeStore]
    exact storeLookup_fdbPurgeApply cur _ k
  refine ⟨?_, ?_, hfdb counterScan quotaScan current, ?_, ?_⟩
  · intro k1 v
    simp [pgPurgeStore, sqlDeleteWhereZero, List.mem_filter]
  · intro k1 v
    simp [pgPurgeStore, sqlDeleteWhereZero, List.mem_filter]
  · intro hne
    rw [hfdb counterScan quotaScan current, if_neg (by tauto)]
  · intro s
    rw [hfdb s [] s]
    by_cases hv : storeLookup s k = some (toLeBytes64 0)
    · have hks : (k, toLeBytes64 0) ∈ s := storeLookup_mem s k _ hv
      have hz : allZeroValue (toLeBytes64 0) = true := by decide
      have hmem : k ∈ collectZeroKeys s ++ collectZeroKeys [] :=
        List.mem_append.mpr (Or.inl ((mem_collectZeroKeys s k).mpr ⟨_, hks, hz⟩))
      rw [if_pos ⟨hmem, hv⟩, if_pos hv]
    · rw [if_neg (by tauto), if_neg hv]
